import Mathlib

/-!
Shallow embedding of the study-tracker backend's statistics and streak
engine and of its session CRUD handlers, together with theorems settling
the specification claims about them.

Calendar dates are modelled as integer day numbers (days since
1970-01-01, i.e. the value of a JavaScript Date after setHours(0,0,0,0),
divided by 86400000).  With that convention, 2024-01-01 is day 19723,
2024-01-02 is 19724, 2024-01-03 is 19725, 2024-01-05 is 19727 and
2024-01-06 is 19728, and the JavaScript expression
date.setDate(date.getDate() - i) is subtraction of i on day numbers.
-/

namespace StudyTracker

/-- Insert a day number into a list kept in descending order. -/
def insertDesc (x : Int) : List Int → List Int
  | [] => [x]
  | y :: ys => if y ≤ x then x :: y :: ys else y :: insertDesc x ys

/-- Sort day numbers in descending order.  This models the database query
sort on the date field with direction -1: the stored dates carry a time of
day and are sorted by full timestamp, but the streak walk strips the time
component first, and a timestamp-descending order projects to exactly a
day-number-descending order of the stripped days, so sorting the stripped
days directly is faithful. -/
def sortDesc : List Int → List Int
  | [] => []
  | x :: xs => insertDesc x (sortDesc xs)

namespace StudySession

/-- The loop of the getUserStreak static of the StudySession model
(backend-simple/server.js, model portion, lines 535-552).  Arguments:
the remaining (already sorted) session days, the anchor day held in
currentDate, the loop index i, and the three accumulators tempStreak,
currentStreak and maxStreak.  At index i the expected day is
anchor - i; on a match tempStreak is incremented and, only when i = 0,
copied into currentStreak; on a mismatch maxStreak absorbs tempStreak
and tempStreak resets.  After the loop maxStreak absorbs the final
tempStreak. -/
def streakWalk : List Int → Int → Nat → Nat → Nat → Nat → Nat × Nat
  | [], _, _, tempStreak, currentStreak, maxStreak =>
      (currentStreak, Nat.max maxStreak tempStreak)
  | d :: ds, anchor, i, tempStreak, currentStreak, maxStreak =>
      if d = anchor - (i : Int) then
        streakWalk ds anchor (i + 1) (tempStreak + 1)
          (if i = 0 then tempStreak + 1 else currentStreak) maxStreak
      else
        streakWalk ds anchor (i + 1) 0 currentStreak (Nat.max maxStreak tempStreak)

/-- getUserStreak (StudySession model static): fetch the owner's session
dates, return (0, 0) when there are none; otherwise anchor at today when
some session falls on today's calendar day and at yesterday otherwise,
sort the days descending, and run the positional walk. -/
def getUserStreak (dates : List Int) (today : Int) : Nat × Nat :=
  if dates.isEmpty then (0, 0)
  else
    let anchor : Int := if dates.contains today then today else today - 1
    streakWalk (sortDesc dates) anchor 0 0 0 0

/-- One session as seen by the document-database variant: its calendar day,
its duration in minutes, and its optional quality rating (null allowed). -/
structure MSession where
  day : Int
  duration : Int
  quality : Option Int
deriving DecidableEq

/-- The aggregation result of the getUserStats static of the StudySession
model.  averageDuration and averageQuality come from the avg accumulator of
the aggregation pipeline, which returns the exact mean of the grouped
values (quality values of null are skipped; an avg over no values is null,
modelled as none). -/
structure MongoStats where
  totalSessions : Nat
  totalDuration : Int
  averageDuration : ℚ
  averageQuality : Option ℚ
deriving DecidableEq

/-- The optional inclusive [startDate, endDate] filter of getUserStats:
the match stage restricts to sessions with startDate <= date <= endDate
only when both bounds are supplied. -/
def inRange (range : Option (Int × Int)) (day : Int) : Bool :=
  match range with
  | none => true
  | some (s, e) => decide (s ≤ day) && decide (day ≤ e)

/-- getUserStats (StudySession model static): aggregate the owner's
sessions matched by the optional date range; when nothing matches the
pipeline yields no group and the fallback all-zero object is returned. -/
def getUserStats (sessions : List MSession) (range : Option (Int × Int)) :
    MongoStats :=
  let matched := sessions.filter (fun s => inRange range s.day)
  if matched.isEmpty then ⟨0, 0, 0, some 0⟩
  else
    let n := matched.length
    let tot := (matched.map (fun s => s.duration)).sum
    let qs := matched.filterMap (fun s => s.quality)
    { totalSessions := n
      totalDuration := tot
      averageDuration := (tot : ℚ) / (n : ℚ)
      averageQuality :=
        if qs.isEmpty then none else some ((qs.sum : ℚ) / (qs.length : ℚ)) }

end StudySession

namespace Controller

/-- One calendar bucket step of the stats controller: add a session's
duration into the per-day accumulator keyed by its calendar day. -/
def addToCalendar (acc : List (Int × Int)) (day dur : Int) : List (Int × Int) :=
  match acc with
  | [] => [(day, dur)]
  | (d, v) :: rest =>
      if d = day then (d, v + dur) :: rest else (d, v) :: addToCalendar rest day dur

/-- The sessionsByDate grouping of the stats controller: sum durations per
calendar day over the given sessions. -/
def calendarOf (sessions : List StudySession.MSession) : List (Int × Int) :=
  sessions.foldl (fun acc s => addToCalendar acc s.day s.duration) []

/-- getUserStats (controller): reads the optional startDate/endDate query
range, asks the model for the aggregate stats over that range, asks the
model for the streak over the owner's full session history (no range is
passed to getUserStreak), and groups the last 90 days of sessions into the
calendar payload.  The response bundles all three. -/
def getUserStats (sessions : List StudySession.MSession) (today : Int)
    (range : Option (Int × Int)) :
    StudySession.MongoStats × (Nat × Nat) × List (Int × Int) :=
  let stats := StudySession.getUserStats sessions range
  let streak := StudySession.getUserStreak (sessions.map (fun s => s.day)) today
  let recent := sessions.filter (fun s => decide (today - 90 ≤ s.day))
  (stats, streak, calendarOf recent)

end Controller

namespace Controller

/-- A study-session document of the document-database variant. -/
structure MDoc where
  id : String
  user : String
  day : Int
  duration : Int
  subject : String
  notes : String
  tags : List String
  quality : Option Int
deriving DecidableEq

/-- The update request body of the document-database controller, with
absent fields as none. -/
structure MUpdateBody where
  date : Option Int
  duration : Option Int
  subject : Option String
  notes : Option String
  tags : Option (List String)
  quality : Option Int
deriving DecidableEq

/-- The controller's field-by-field update of the found document: each
field is overwritten only when the body supplies it. -/
def applyMongoBody (d : MDoc) (b : MUpdateBody) : MDoc :=
  { d with
    day := b.date.getD d.day
    duration := b.duration.getD d.duration
    subject := b.subject.getD d.subject
    notes := b.notes.getD d.notes
    tags := b.tags.getD d.tags
    quality := match b.quality with | none => d.quality | some q => some q }

/-- The findOne query on id and owner followed by save: replace the first
document matching both the target id and the calling owner, returning it;
return null and leave the collection alone when none matches. -/
def mongoUpdateFirst : List MDoc → String → String → MUpdateBody →
    Option MDoc × List MDoc
  | [], _, _, _ => (none, [])
  | d :: rest, caller, tid, b =>
      if d.id == tid && d.user == caller then
        (some (applyMongoBody d b), applyMongoBody d b :: rest)
      else
        let r := mongoUpdateFirst rest caller tid b
        (r.1, d :: r.2)

/-- findOneAndDelete on id and owner: remove the first document matching
both conditions. -/
def mongoDeleteFirst : List MDoc → String → String → Option MDoc × List MDoc
  | [], _, _ => (none, [])
  | d :: rest, caller, tid =>
      if d.id == tid && d.user == caller then (some d, rest)
      else
        let r := mongoDeleteFirst rest caller tid
        (r.1, d :: r.2)

/-- Outcome of the controller's update and delete routes. -/
inductive ControllerOutcome where
  | notFound
  | ok (doc : MDoc)
deriving DecidableEq

/-- updateStudySession (controller): findOne restricted to the target id
and the calling owner; 404 when nothing matches, otherwise overwrite the
supplied fields and save. -/
def updateStudySession (docs : List MDoc) (callerId targetId : String)
    (b : MUpdateBody) : ControllerOutcome × List MDoc :=
  let r := mongoUpdateFirst docs callerId targetId b
  match r.1 with
  | none => (ControllerOutcome.notFound, docs)
  | some d => (ControllerOutcome.ok d, r.2)

/-- deleteStudySession (controller): findOneAndDelete restricted to the
target id and the calling owner; 404 when nothing matches. -/
def deleteStudySession (docs : List MDoc) (callerId targetId : String) :
    ControllerOutcome × List MDoc :=
  let r := mongoDeleteFirst docs callerId targetId
  match r.1 with
  | none => (ControllerOutcome.notFound, docs)
  | some d => (ControllerOutcome.ok d, r.2)

end Controller

namespace SimpleServer

/-- A user record of the flat-file database (data.json users array). -/
structure FUser where
  id : String
  name : String
  email : String
  password : String
  token : String
deriving DecidableEq

/-- A study session record of the flat-file database (data.json
studySessions array).  Records are created without an updatedAt field;
the store adds one on the first update. -/
structure FSession where
  id : String
  userId : String
  date : String
  duration : Int
  notes : String
  createdAt : String
  updatedAt : Option String
deriving DecidableEq

/-- The whole flat-file database: a users array and a studySessions
array, read and rewritten as one JSON document. -/
structure DB where
  users : List FUser
  studySessions : List FSession
deriving DecidableEq

/-- Math.round on a nonnegative rational: floor of the value plus one
half (JavaScript rounds halves up). -/
def jsRound (q : ℚ) : Int := ⌊q + 1 / 2⌋

/-- The response of the flat-file stats endpoint. -/
structure Stats where
  totalSessions : Nat
  totalDuration : Int
  averageDuration : Int
deriving DecidableEq

/-- The GET stats handler of the flat-file server: count the caller's
sessions, sum their durations with reduce, and take Math.round of the
quotient when the count is positive, 0 otherwise. -/
def getStats (userSessions : List FSession) : Stats :=
  let totalSessions := userSessions.length
  let totalDuration := (userSessions.map (fun s => s.duration)).sum
  { totalSessions := totalSessions
    totalDuration := totalDuration
    averageDuration :=
      if 0 < totalSessions then jsRound ((totalDuration : ℚ) / (totalSessions : ℚ))
      else 0 }

/-- The updates object assembled by the PUT handler: at most the date,
duration and notes fields, each optional. -/
structure Updates where
  date : Option String
  duration : Option Int
  notes : Option String
deriving DecidableEq

/-- The request body of the PUT handler, with absent fields as none.
Bodies may also carry a userId field; the handler never reads it. -/
structure PutBody where
  date : Option String
  duration : Option Int
  notes : Option String
  userId : Option String
deriving DecidableEq

/-- The PUT handler's assembly of the updates object: date is placed when
truthy (present and nonempty), duration when truthy (present and nonzero,
then passed through parseInt, the identity on integers), and notes
whenever it is not undefined (the empty string is placed). -/
def buildUpdates (b : PutBody) : Updates :=
  { date := match b.date with
      | none => none
      | some d => if d = "" then none else some d
    duration := match b.duration with
      | none => none
      | some d => if d = 0 then none else some d
    notes := b.notes }

/-- The store's record merge: spread the old session, then the updates
object (present fields override), then set updatedAt to the current
timestamp. -/
def applyUpdates (s : FSession) (u : Updates) (now : String) : FSession :=
  { s with
    date := u.date.getD s.date
    duration := u.duration.getD s.duration
    notes := u.notes.getD s.notes
    updatedAt := some now }

/-- studySessions.update of the flat-file store: findIndex of the first
record with the given id; if none, return null and leave the array alone;
otherwise replace that record in place with the merged record and return
it.  Written as a structural recursion over the array, which replaces
exactly the first matching index. -/
def updateFirst : List FSession → String → Updates → String →
    Option FSession × List FSession
  | [], _, _, _ => (none, [])
  | s :: rest, tid, u, now =>
      if s.id == tid then
        (some (applyUpdates s u now), applyUpdates s u now :: rest)
      else
        let r := updateFirst rest tid u now
        (r.1, s :: r.2)

/-- studySessions.delete of the flat-file store: findIndex of the first
record with the given id; if none, return null and leave the array alone;
otherwise splice that record out and return it. -/
def deleteFirst : List FSession → String → Option FSession × List FSession
  | [], _ => (none, [])
  | s :: rest, tid =>
      if s.id == tid then (some s, rest)
      else
        let r := deleteFirst rest tid
        (r.1, s :: r.2)

/-- Outcome of the PUT route: a 404 response, or a 200 response carrying
whatever the store's update returned. -/
inductive PutOutcome where
  | notFound
  | ok (updated : Option FSession)
deriving DecidableEq

/-- Outcome of the DELETE route. -/
inductive DeleteOutcome where
  | notFound
  | ok (deleted : Option FSession)
deriving DecidableEq

/-- Outcome of the POST route: a 400 response when date or duration is
missing or falsy, or a 201 response with the created session. -/
inductive PostOutcome where
  | badRequest
  | created (session : FSession)
deriving DecidableEq

/-- The PUT route of the flat-file server: look the target session up by
id; when it is absent or its userId differs from the authenticated
caller's id, answer 404 and touch nothing; otherwise build the updates
object from the body and apply the store's update. -/
def putStudySession (db : DB) (callerId targetId : String) (body : PutBody)
    (now : String) : PutOutcome × DB :=
  match db.studySessions.find? (fun s => s.id == targetId) with
  | none => (PutOutcome.notFound, db)
  | some s =>
      if s.userId == callerId then
        let r := updateFirst db.studySessions targetId (buildUpdates body) now
        (PutOutcome.ok r.1, { db with studySessions := r.2 })
      else (PutOutcome.notFound, db)

/-- The DELETE route of the flat-file server: same existence and
ownership gate as PUT, then the store's delete. -/
def deleteStudySession (db : DB) (callerId targetId : String) :
    DeleteOutcome × DB :=
  match db.studySessions.find? (fun s => s.id == targetId) with
  | none => (DeleteOutcome.notFound, db)
  | some s =>
      if s.userId == callerId then
        let r := deleteFirst db.studySessions targetId
        (DeleteOutcome.ok r.1, { db with studySessions := r.2 })
      else (DeleteOutcome.notFound, db)

/-- The request body of the POST handler.  A body-supplied userId field is
carried to record that the handler ignores it. -/
structure PostBody where
  date : Option String
  duration : Option Int
  notes : Option String
  userId : Option String
deriving DecidableEq

/-- The POST route of the flat-file server: reject when date or duration
is missing or falsy; otherwise append a new session whose userId is the
authenticated caller's id (the body's userId field is never consulted),
with notes defaulted to the empty string, a fresh id and a createdAt
timestamp from the store. -/
def postStudySession (db : DB) (callerId : String) (body : PostBody)
    (newId now : String) : PostOutcome × DB :=
  match body.date, body.duration with
  | some d, some dur =>
      if d = "" ∨ dur = 0 then (PostOutcome.badRequest, db)
      else
        let s : FSession :=
          { id := newId, userId := callerId, date := d, duration := dur
            notes := body.notes.getD "", createdAt := now, updatedAt := none }
        (PostOutcome.created s, { db with studySessions := db.studySessions ++ [s] })
  | _, _ => (PostOutcome.badRequest, db)

end SimpleServer

/-! Helper lemmas about the streak walk. -/

/-- The walk never touches currentStreak after index 0. -/
theorem streakWalk_fst (anchor : Int) :
    ∀ (ds : List Int) (j t c m : Nat),
      (StudySession.streakWalk ds anchor (j + 1) t c m).1 = c := by
  intro ds
  induction ds with
  | nil => intro j t c m; rfl
  | cons d ds ih =>
    intro j t c m
    simp only [StudySession.streakWalk]
    split
    · rw [if_neg (Nat.succ_ne_zero j)]
      exact ih (j + 1) (t + 1) c m
    · exact ih (j + 1) 0 c (Nat.max m t)

/-- The maxStreak accumulator only grows along the walk, and the result
dominates both incoming accumulators. -/
theorem streakWalk_snd_ge (anchor : Int) :
    ∀ (ds : List Int) (i t c m : Nat),
      Nat.max m t ≤ (StudySession.streakWalk ds anchor i t c m).2 := by
  intro ds
  induction ds with
  | nil => intro i t c m; exact Nat.le_refl _
  | cons d ds ih =>
    intro i t c m
    simp only [StudySession.streakWalk]
    split
    · exact le_trans
        (Nat.max_le.mpr ⟨Nat.le_max_left m (t + 1),
          Nat.le_trans (Nat.le_succ t) (Nat.le_max_right m (t + 1))⟩)
        (ih (i + 1) (t + 1) _ m)
    · exact le_trans (Nat.le_max_left (Nat.max m t) 0) (ih (i + 1) 0 c (Nat.max m t))

/-- Starting the walk with all accumulators zero, the returned
currentStreak never exceeds the returned maxStreak. -/
theorem streakWalk_start_le (l : List Int) (anchor : Int) :
    (StudySession.streakWalk l anchor 0 0 0 0).1 ≤
      (StudySession.streakWalk l anchor 0 0 0 0).2 := by
  cases l with
  | nil => exact Nat.le_refl _
  | cons d ds =>
    simp only [StudySession.streakWalk]
    split
    · rw [streakWalk_fst]
      refine le_trans ?_ (streakWalk_snd_ge anchor ds (0 + 1) (0 + 1) _ 0)
      simp
    · rw [streakWalk_fst]
      exact Nat.zero_le _

/-- The walk copies tempStreak into currentStreak only at index 0, where
tempStreak is at most 1: whatever the input, the returned currentStreak is
never larger than 1. -/
theorem getUserStreak_fst_le_one (dates : List Int) (today : Int) :
    (StudySession.getUserStreak dates today).1 ≤ 1 := by
  unfold StudySession.getUserStreak
  split
  · exact Nat.zero_le 1
  · show (StudySession.streakWalk (sortDesc dates)
        (if dates.contains today then today else today - 1) 0 0 0 0).1 ≤ 1
    generalize (if dates.contains today then today else today - 1) = anchor
    cases sortDesc dates with
    | nil => exact Nat.zero_le 1
    | cons d ds =>
      simp only [StudySession.streakWalk]
      split
      · rw [streakWalk_fst]
        simp
      · rw [streakWalk_fst]
        exact Nat.zero_le 1

/-! Helper lemmas about the flat-file store and the controller. -/

/-- A record distinct from every record the lookup can return survives the
store's update untouched. -/
theorem mem_updateFirst_of_ne (tid : String) (u : SimpleServer.Updates) (now : String) :
    ∀ (l : List SimpleServer.FSession) (x : SimpleServer.FSession), x ∈ l →
      (∀ s, l.find? (fun y => y.id == tid) = some s → x ≠ s) →
      x ∈ (SimpleServer.updateFirst l tid u now).2 := by
  intro l
  induction l with
  | nil => intro x hx _; cases hx
  | cons a l ih =>
    intro x hx h
    by_cases ha : a.id == tid
    · simp only [SimpleServer.updateFirst, if_pos ha]
      rcases List.mem_cons.mp hx with rfl | hxl
      · exact absurd rfl (h x (List.find?_cons_of_pos l ha))
      · exact List.mem_cons_of_mem _ hxl
    · simp only [SimpleServer.updateFirst, if_neg ha]
      rcases List.mem_cons.mp hx with rfl | hxl
      · exact List.mem_cons_self _ _
      · refine List.mem_cons_of_mem _ (ih x hxl ?_)
        intro s hs
        refine h s ?_
        rw [List.find?_cons_of_neg l ha]
        exact hs

/-- A record distinct from every record the lookup can return survives the
store's delete untouched. -/
theorem mem_deleteFirst_of_ne (tid : String) :
    ∀ (l : List SimpleServer.FSession) (x : SimpleServer.FSession), x ∈ l →
      (∀ s, l.find? (fun y => y.id == tid) = some s → x ≠ s) →
      x ∈ (SimpleServer.deleteFirst l tid).2 := by
  intro l
  induction l with
  | nil => intro x hx _; cases hx
  | cons a l ih =>
    intro x hx h
    by_cases ha : a.id == tid
    · simp only [SimpleServer.deleteFirst, if_pos ha]
      rcases List.mem_cons.mp hx with rfl | hxl
      · exact absurd rfl (h x (List.find?_cons_of_pos l ha))
      · exact hxl
    · simp only [SimpleServer.deleteFirst, if_neg ha]
      rcases List.mem_cons.mp hx with rfl | hxl
      · exact List.mem_cons_self _ _
      · refine List.mem_cons_of_mem _ (ih x hxl ?_)
        intro s hs
        refine h s ?_
        rw [List.find?_cons_of_neg l ha]
        exact hs

/-- A document of a different owner survives the controller's
owner-filtered update untouched. -/
theorem mem_mongoUpdateFirst_of_ne (caller tid : String) (b : Controller.MUpdateBody) :
    ∀ (l : List Controller.MDoc) (x : Controller.MDoc), x ∈ l → x.user ≠ caller →
      x ∈ (Controller.mongoUpdateFirst l caller tid b).2 := by
  intro l
  induction l with
  | nil => intro x hx _; cases hx
  | cons d l ih =>
    intro x hx hne
    by_cases hd : d.id == tid && d.user == caller
    · simp only [Controller.mongoUpdateFirst, if_pos hd]
      rcases List.mem_cons.mp hx with rfl | hxl
      · exact absurd (eq_of_beq ((Bool.and_eq_true _ _).mp hd).2) hne
      · exact List.mem_cons_of_mem _ hxl
    · simp only [Controller.mongoUpdateFirst, if_neg hd]
      rcases List.mem_cons.mp hx with rfl | hxl
      · exact List.mem_cons_self _ _
      · exact List.mem_cons_of_mem _ (ih x hxl hne)

/-- A document of a different owner survives the controller's
owner-filtered delete untouched. -/
theorem mem_mongoDeleteFirst_of_ne (caller tid : String) :
    ∀ (l : List Controller.MDoc) (x : Controller.MDoc), x ∈ l → x.user ≠ caller →
      x ∈ (Controller.mongoDeleteFirst l caller tid).2 := by
  intro l
  induction l with
  | nil => intro x hx _; cases hx
  | cons d l ih =>
    intro x hx hne
    by_cases hd : d.id == tid && d.user == caller
    · simp only [Controller.mongoDeleteFirst, if_pos hd]
      rcases List.mem_cons.mp hx with rfl | hxl
      · exact absurd (eq_of_beq ((Bool.and_eq_true _ _).mp hd).2) hne
      · exact hxl
    · simp only [Controller.mongoDeleteFirst, if_neg hd]
      rcases List.mem_cons.mp hx with rfl | hxl
      · exact List.mem_cons_self _ _
      · exact List.mem_cons_of_mem _ (ih x hxl hne)

/-- When no document matches the owner-filtered query, the controller's
update is the identity on the collection. -/
theorem mongoUpdateFirst_none (caller tid : String) (b : Controller.MUpdateBody) :
    ∀ (l : List Controller.MDoc),
      l.find? (fun d => d.id == tid && d.user == caller) = none →
      Controller.mongoUpdateFirst l caller tid b = (none, l) := by
  intro l
  induction l with
  | nil => intro _; rfl
  | cons d l ih =>
    intro h
    by_cases hd : d.id == tid && d.user == caller
    · rw [List.find?_cons_of_pos l hd] at h
      cases h
    · rw [List.find?_cons_of_neg l hd] at h
      simp only [Controller.mongoUpdateFirst, if_neg hd, ih h]

/-- When no document matches the owner-filtered query, the controller's
delete is the identity on the collection. -/
theorem mongoDeleteFirst_none (caller tid : String) :
    ∀ (l : List Controller.MDoc),
      l.find? (fun d => d.id == tid && d.user == caller) = none →
      Controller.mongoDeleteFirst l caller tid = (none, l) := by
  intro l
  induction l with
  | nil => intro _; rfl
  | cons d l ih =>
    intro h
    by_cases hd : d.id == tid && d.user == caller
    · rw [List.find?_cons_of_pos l hd] at h
      cases h
    · rw [List.find?_cons_of_neg l hd] at h
      simp only [Controller.mongoDeleteFirst, if_neg hd, ih h]

/-- The store's update preserves the length of the sessions array. -/
theorem updateFirst_length (tid : String) (u : SimpleServer.Updates) (now : String) :
    ∀ l, (SimpleServer.updateFirst l tid u now).2.length = l.length := by
  intro l
  induction l with
  | nil => rfl
  | cons a l ih =>
    by_cases ha : a.id == tid
    · simp only [SimpleServer.updateFirst, if_pos ha, List.length_cons]
    · simp only [SimpleServer.updateFirst, if_neg ha, List.length_cons, ih]

/-- Position by position, the store's update leaves each record unchanged
or, when the record carries the target id, replaces it with the merged
record. -/
theorem updateFirst_getElem (tid : String) (u : SimpleServer.Updates) (now : String) :
    ∀ (l : List SimpleServer.FSession) (i : Nat) (s : SimpleServer.FSession),
      l[i]? = some s →
      ((SimpleServer.updateFirst l tid u now).2[i]? = some s ∨
        (s.id = tid ∧ (SimpleServer.updateFirst l tid u now).2[i]? =
          some (SimpleServer.applyUpdates s u now))) := by
  intro l
  induction l with
  | nil => intro i s h; simp at h
  | cons a l ih =>
    intro i s h
    by_cases ha : a.id == tid
    · simp only [SimpleServer.updateFirst, if_pos ha]
      cases i with
      | zero =>
        simp only [List.getElem?_cons_zero] at h ⊢
        injection h with h
        subst h
        exact Or.inr ⟨eq_of_beq ha, rfl⟩
      | succ i =>
        simp only [List.getElem?_cons_succ] at h ⊢
        exact Or.inl h
    · simp only [SimpleServer.updateFirst, if_neg ha]
      cases i with
      | zero =>
        simp only [List.getElem?_cons_zero] at h ⊢
        exact Or.inl h
      | succ i =>
        simp only [List.getElem?_cons_succ] at h ⊢
        exact ih i s h

/-! Theorems settling the claims. -/

/-- Claim C1: on the claimed scenario of sessions on 2024-01-01, 2024-01-02
and 2024-01-03 with today = 2024-01-03 (days 19723, 19724, 19725), the
getUserStreak code returns currentStreak = 1 and maxStreak = 3, not the
claimed currentStreak = 3: the walk copies tempStreak into currentStreak
only at index 0, so currentStreak records only whether the newest session
day matches the anchor. -/
theorem claim_c1_consecutive_run_scenario :
    StudySession.getUserStreak [19723, 19724, 19725] 19725 = (1, 3) := by decide

/-- Claim C2: on the claimed scenario of sessions on 2024-01-01, 2024-01-02
and 2024-01-05 with today = 2024-01-05 (days 19723, 19724, 19727), the
getUserStreak code returns maxStreak = 1, not the claimed maxStreak = 2:
after the first mismatch the expected day anchor - i keeps dropping one per
index and never re-aligns with the older two-day run, so that run is walked
entirely as mismatches and contributes nothing to maxStreak. -/
theorem claim_c2_gap_history_scenario :
    StudySession.getUserStreak [19723, 19724, 19727] 19727 = (1, 1) := by decide

/-- Claim C3: totals do count each session separately (two sessions of 30
and 45 minutes on the same day give totalSessions = 2 and
totalDuration = 75), but the streak walk does not deduplicate days: with
two sessions on 2024-01-02 (day 19724) and one on 2024-01-01 (day 19723),
today being 2024-01-02, the duplicate occupies index 1 and breaks the run,
giving maxStreak = 1, whereas the same history with the duplicated session
removed gives maxStreak = 2. -/
theorem claim_c3_duplicate_day :
    SimpleServer.getStats
        [⟨"1", "u1", "2024-01-01", 30, "", "t0", none⟩,
         ⟨"2", "u1", "2024-01-01", 45, "", "t0", none⟩] = ⟨2, 75, 38⟩ ∧
    StudySession.getUserStreak [19724, 19724, 19723] 19724 = (1, 1) ∧
    StudySession.getUserStreak [19724, 19723] 19724 = (1, 2) := by
  refine ⟨?_, by decide, by decide⟩
  simp only [SimpleServer.getStats, SimpleServer.jsRound]
  norm_num

/-- Claim C4: on the claimed scenario of sessions on 2024-01-01 through
2024-01-05 with today = 2024-01-06 (days 19723..19727, today 19728) and no
session today, the anchor does fall back to 2024-01-05 and the whole
history matches the walk (maxStreak = 5), but the code returns
currentStreak = 1, not the claimed currentStreak = 5, because currentStreak
is only assigned at index 0. -/
theorem claim_c4_anchor_fallback_scenario :
    StudySession.getUserStreak [19723, 19724, 19725, 19726, 19727] 19728 = (1, 5) := by
  decide

/-- Claim C5: on the empty session set both statistics variants return the
all-zero aggregate and the streak code returns (0, 0); the embedded engine
is a total function of its input by construction. -/
theorem claim_c5_empty_input_zeroes :
    SimpleServer.getStats [] = ⟨0, 0, 0⟩ ∧
    StudySession.getUserStats [] none = ⟨0, 0, 0, some 0⟩ ∧
    ∀ today : Int, StudySession.getUserStreak [] today = (0, 0) := by
  exact ⟨rfl, rfl, fun _ => rfl⟩

/-- Claim C6 counterexample: in the document-database variant the average
is not rounded.  For two sessions of 1 and 2 minutes, getUserStats returns
averageDuration = 3/2, while the claimed round of totalDuration over
totalSessions is 2. -/
theorem claim_c6_mongo_average_unrounded :
    (StudySession.getUserStats [⟨19723, 1, none⟩, ⟨19723, 2, none⟩] none).averageDuration ≠
      ((round (((StudySession.getUserStats [⟨19723, 1, none⟩, ⟨19723, 2, none⟩] none).totalDuration : ℚ) /
        ((StudySession.getUserStats [⟨19723, 1, none⟩, ⟨19723, 2, none⟩] none).totalSessions : ℚ)) : ℤ) : ℚ) := by
  have h1 : (StudySession.getUserStats [⟨19723, 1, none⟩, ⟨19723, 2, none⟩] none).averageDuration = 3 / 2 := by
    simp only [StudySession.getUserStats, StudySession.inRange]
    norm_num
  have h2 : (StudySession.getUserStats [⟨19723, 1, none⟩, ⟨19723, 2, none⟩] none).totalDuration = 3 := by
    rfl
  have h3 : (StudySession.getUserStats [⟨19723, 1, none⟩, ⟨19723, 2, none⟩] none).totalSessions = 2 := by
    rfl
  rw [h1, h2, h3]
  norm_num [round_eq]

/-- Claim C6 as amended: the flat-file variant returns the
nearest-integer rounding of totalDuration over totalSessions when the
count is positive and 0 on the empty set; the document-database variant
returns the exact unrounded quotient when some session matches and 0 when
none does. -/
theorem claim_c6_average_semantics (userSessions : List SimpleServer.FSession)
    (sessions : List StudySession.MSession) (range : Option (Int × Int)) :
    (0 < (SimpleServer.getStats userSessions).totalSessions →
      (SimpleServer.getStats userSessions).averageDuration =
        round (((SimpleServer.getStats userSessions).totalDuration : ℚ) /
          ((SimpleServer.getStats userSessions).totalSessions : ℚ))) ∧
    (userSessions = [] → (SimpleServer.getStats userSessions).averageDuration = 0) ∧
    (0 < (StudySession.getUserStats sessions range).totalSessions →
      (StudySession.getUserStats sessions range).averageDuration =
        ((StudySession.getUserStats sessions range).totalDuration : ℚ) /
          ((StudySession.getUserStats sessions range).totalSessions : ℚ)) ∧
    ((sessions.filter (fun s => StudySession.inRange range s.day)).isEmpty →
      (StudySession.getUserStats sessions range).averageDuration = 0) := by
  refine ⟨?_, ?_, ?_, ?_⟩
  · intro h
    simp only [SimpleServer.getStats] at h ⊢
    rw [if_pos h, SimpleServer.jsRound, round_eq]
  · intro h
    subst h
    rfl
  · intro h
    by_cases he : (sessions.filter (fun s => StudySession.inRange range s.day)).isEmpty
    · exfalso
      simp only [StudySession.getUserStats, if_pos he] at h
      exact absurd h (by decide)
    · simp only [StudySession.getUserStats, if_neg he]
  · intro he
    simp only [StudySession.getUserStats, if_pos he]

/-- Claim C6 witness: concrete instances of the amended average
semantics. -/
theorem claim_c6_average_semantics_witness :
    (SimpleServer.getStats
        [⟨"1", "u1", "2024-01-01", 30, "", "t0", none⟩,
         ⟨"2", "u1", "2024-01-01", 45, "", "t0", none⟩]).averageDuration =
      round (((SimpleServer.getStats
        [⟨"1", "u1", "2024-01-01", 30, "", "t0", none⟩,
         ⟨"2", "u1", "2024-01-01", 45, "", "t0", none⟩]).totalDuration : ℚ) /
        ((SimpleServer.getStats
        [⟨"1", "u1", "2024-01-01", 30, "", "t0", none⟩,
         ⟨"2", "u1", "2024-01-01", 45, "", "t0", none⟩]).totalSessions : ℚ)) ∧
    (StudySession.getUserStats [⟨19723, 1, none⟩, ⟨19723, 2, none⟩] none).averageDuration =
      (((StudySession.getUserStats [⟨19723, 1, none⟩, ⟨19723, 2, none⟩] none).totalDuration : ℚ) /
        ((StudySession.getUserStats [⟨19723, 1, none⟩, ⟨19723, 2, none⟩] none).totalSessions : ℚ)) := by
  constructor
  · exact (claim_c6_average_semantics
      [⟨"1", "u1", "2024-01-01", 30, "", "t0", none⟩,
       ⟨"2", "u1", "2024-01-01", 45, "", "t0", none⟩] [] none).1 (by decide)
  · exact (claim_c6_average_semantics []
      [⟨19723, 1, none⟩, ⟨19723, 2, none⟩] none).2.2.1 (by decide)

/-- Claim C7: for every session history and every value of today, the pair
returned by getUserStreak satisfies currentStreak ≤ maxStreak. -/
theorem claim_c7_max_ge_current (dates : List Int) (today : Int) :
    (StudySession.getUserStreak dates today).1 ≤
      (StudySession.getUserStreak dates today).2 := by
  unfold StudySession.getUserStreak
  split
  · exact Nat.le_refl 0
  · exact streakWalk_start_le (sortDesc dates)
      (if dates.contains today then today else today - 1)

/-- Claim C8: the stats controller computes the streak from the owner's
full session history; the optional startDate/endDate range restricts only
the aggregate totals, so the streak component of the response is the same
for any two choices of the range. -/
theorem claim_c8_streak_range_independent (sessions : List StudySession.MSession)
    (today : Int) (r1 r2 : Option (Int × Int)) :
    (Controller.getUserStats sessions today r1).2.1 =
      (Controller.getUserStats sessions today r2).2.1 := rfl

/-- Claim C9: in both variants, creation takes the owner from the
authenticated caller and never from the body; an update or delete whose
target is absent or owned by someone else answers not-found and leaves the
store unchanged; and a session of a different owner always survives any
update or delete untouched. -/
theorem claim_c9_ownership (db : SimpleServer.DB) (callerId targetId newId now : String)
    (pbody : SimpleServer.PostBody) (ubody : SimpleServer.PutBody)
    (docs : List Controller.MDoc) (mbody : Controller.MUpdateBody) :
    (∀ s, (SimpleServer.postStudySession db callerId pbody newId now).1 =
        SimpleServer.PostOutcome.created s → s.userId = callerId) ∧
    ((∀ s, db.studySessions.find? (fun x => x.id == targetId) = some s →
        s.userId ≠ callerId) →
      SimpleServer.putStudySession db callerId targetId ubody now =
        (SimpleServer.PutOutcome.notFound, db)) ∧
    ((∀ s, db.studySessions.find? (fun x => x.id == targetId) = some s →
        s.userId ≠ callerId) →
      SimpleServer.deleteStudySession db callerId targetId =
        (SimpleServer.DeleteOutcome.notFound, db)) ∧
    (∀ x ∈ db.studySessions, x.userId ≠ callerId →
      x ∈ (SimpleServer.putStudySession db callerId targetId ubody now).2.studySessions) ∧
    (∀ x ∈ db.studySessions, x.userId ≠ callerId →
      x ∈ (SimpleServer.deleteStudySession db callerId targetId).2.studySessions) ∧
    (docs.find? (fun d => d.id == targetId && d.user == callerId) = none →
      Controller.updateStudySession docs callerId targetId mbody =
        (Controller.ControllerOutcome.notFound, docs)) ∧
    (docs.find? (fun d => d.id == targetId && d.user == callerId) = none →
      Controller.deleteStudySession docs callerId targetId =
        (Controller.ControllerOutcome.notFound, docs)) ∧
    (∀ d ∈ docs, d.user ≠ callerId →
      d ∈ (Controller.updateStudySession docs callerId targetId mbody).2) ∧
    (∀ d ∈ docs, d.user ≠ callerId →
      d ∈ (Controller.deleteStudySession docs callerId targetId).2) := by
  refine ⟨?_, ?_, ?_, ?_, ?_, ?_, ?_, ?_, ?_⟩
  · intro s hs
    unfold SimpleServer.postStudySession at hs
    cases hd : pbody.date with
    | none =>
      rw [hd] at hs
      cases hdur : pbody.duration <;> rw [hdur] at hs <;> simp at hs
    | some d =>
      cases hdur : pbody.duration with
      | none => rw [hd, hdur] at hs; simp at hs
      | some dur =>
        rw [hd, hdur] at hs
        dsimp only at hs
        by_cases hc : d = "" ∨ dur = 0
        · rw [if_pos hc] at hs
          simp at hs
        · rw [if_neg hc] at hs
          dsimp only at hs
          injection hs with hs
          subst hs
          rfl
  · intro h
    unfold SimpleServer.putStudySession
    cases hf : db.studySessions.find? (fun s => s.id == targetId) with
    | none => rfl
    | some s =>
      have hne : ¬(s.userId == callerId) = true := by
        simpa using h s hf
      dsimp only
      rw [if_neg hne]
  · intro h
    unfold SimpleServer.deleteStudySession
    cases hf : db.studySessions.find? (fun s => s.id == targetId) with
    | none => rfl
    | some s =>
      have hne : ¬(s.userId == callerId) = true := by
        simpa using h s hf
      dsimp only
      rw [if_neg hne]
  · intro x hx hne
    unfold SimpleServer.putStudySession
    cases hf : db.studySessions.find? (fun s => s.id == targetId) with
    | none => exact hx
    | some s =>
      by_cases hw : s.userId == callerId
      · dsimp only
        rw [if_pos hw]
        refine mem_updateFirst_of_ne targetId (SimpleServer.buildUpdates ubody) now
          db.studySessions x hx ?_
        intro s0 hs0
        rw [hf] at hs0
        injection hs0 with hs0
        subst hs0
        intro hxs
        rw [hxs] at hne
        exact hne (eq_of_beq hw)
      · dsimp only
        rw [if_neg hw]
        exact hx
  · intro x hx hne
    unfold SimpleServer.deleteStudySession
    cases hf : db.studySessions.find? (fun s => s.id == targetId) with
    | none => exact hx
    | some s =>
      by_cases hw : s.userId == callerId
      · dsimp only
        rw [if_pos hw]
        refine mem_deleteFirst_of_ne targetId db.studySessions x hx ?_
        intro s0 hs0
        rw [hf] at hs0
        injection hs0 with hs0
        subst hs0
        intro hxs
        rw [hxs] at hne
        exact hne (eq_of_beq hw)
      · dsimp only
        rw [if_neg hw]
        exact hx
  · intro h
    unfold Controller.updateStudySession
    rw [mongoUpdateFirst_none callerId targetId mbody docs h]
  · intro h
    unfold Controller.deleteStudySession
    rw [mongoDeleteFirst_none callerId targetId docs h]
  · intro d hd hne
    simp only [Controller.updateStudySession]
    cases hr : (Controller.mongoUpdateFirst docs callerId targetId mbody).1 with
    | none => exact hd
    | some d0 =>
      exact mem_mongoUpdateFirst_of_ne callerId targetId mbody docs d hd hne
  · intro d hd hne
    simp only [Controller.deleteStudySession]
    cases hr : (Controller.mongoDeleteFirst docs callerId targetId).1 with
    | none => exact hd
    | some d0 =>
      exact mem_mongoDeleteFirst_of_ne callerId targetId docs d hd hne

/-- Claim C9 witness: with a store holding one session of owner u1, a
caller u2 gets not-found from update and delete in both variants, and a
created session carries the caller's id even when the body smuggles a
userId field. -/
theorem claim_c9_ownership_witness :
    SimpleServer.putStudySession
        ⟨[⟨"u1", "n", "e", "p", "tk"⟩],
         [⟨"s1", "u1", "2024-01-01", 30, "", "t0", none⟩]⟩
        "u2" "s1" ⟨some "2024-01-02", some 60, none, some "u2"⟩ "t9" =
      (SimpleServer.PutOutcome.notFound,
        ⟨[⟨"u1", "n", "e", "p", "tk"⟩],
         [⟨"s1", "u1", "2024-01-01", 30, "", "t0", none⟩]⟩) ∧
    Controller.updateStudySession
        [⟨"s1", "u1", 19723, 30, "General Study", "", [], none⟩]
        "u2" "s1" ⟨none, none, none, none, none, none⟩ =
      (Controller.ControllerOutcome.notFound,
        [⟨"s1", "u1", 19723, 30, "General Study", "", [], none⟩]) ∧
    (∀ s, (SimpleServer.postStudySession
        ⟨[⟨"u1", "n", "e", "p", "tk"⟩],
         [⟨"s1", "u1", "2024-01-01", 30, "", "t0", none⟩]⟩
        "u2" ⟨some "2024-01-03", some 20, none, some "u1"⟩ "new" "t9").1 =
        SimpleServer.PostOutcome.created s → s.userId = "u2") := by
  refine ⟨?_, ?_, ?_⟩
  · refine (claim_c9_ownership
      ⟨[⟨"u1", "n", "e", "p", "tk"⟩],
       [⟨"s1", "u1", "2024-01-01", 30, "", "t0", none⟩]⟩
      "u2" "s1" "new" "t9" ⟨some "2024-01-03", some 20, none, some "u1"⟩
      ⟨some "2024-01-02", some 60, none, some "u2"⟩ [] ⟨none, none, none, none, none, none⟩).2.1 ?_
    intro s hs
    have hev : (⟨[⟨"u1", "n", "e", "p", "tk"⟩],
        [⟨"s1", "u1", "2024-01-01", 30, "", "t0", none⟩]⟩ : SimpleServer.DB).studySessions.find?
          (fun x => x.id == "s1") =
        some ⟨"s1", "u1", "2024-01-01", 30, "", "t0", none⟩ := rfl
    rw [hev] at hs
    injection hs with hs
    subst hs
    decide
  · refine (claim_c9_ownership ⟨[], []⟩ "u2" "s1" "new" "t9"
      ⟨none, none, none, none⟩ ⟨none, none, none, none⟩
      [⟨"s1", "u1", 19723, 30, "General Study", "", [], none⟩]
      ⟨none, none, none, none, none, none⟩).2.2.2.2.2.1 ?_
    rfl
  · exact (claim_c9_ownership
      ⟨[⟨"u1", "n", "e", "p", "tk"⟩],
       [⟨"s1", "u1", "2024-01-01", 30, "", "t0", none⟩]⟩
      "u2" "s1" "new" "t9" ⟨some "2024-01-03", some 20, none, some "u1"⟩
      ⟨some "2024-01-02", some 60, none, some "u2"⟩ [] ⟨none, none, none, none, none, none⟩).1

/-- Claim C10: the flat-file update touches no user record, preserves the
number of sessions, leaves every position unchanged except a position
holding the target id, which receives the merged record; the merge changes
only the fields present in the updates object plus the updatedAt
bookkeeping timestamp; and the PUT handler places date and duration in the
updates object only when the request supplies them truthy, and notes only
when the request supplies it. -/
theorem claim_c10_update_frame (db : SimpleServer.DB) (callerId targetId now : String)
    (body : SimpleServer.PutBody) :
    (SimpleServer.putStudySession db callerId targetId body now).2.users = db.users ∧
    (SimpleServer.putStudySession db callerId targetId body now).2.studySessions.length =
      db.studySessions.length ∧
    (∀ (i : Nat) (s : SimpleServer.FSession), db.studySessions[i]? = some s →
      ((SimpleServer.putStudySession db callerId targetId body now).2.studySessions[i]? =
          some s ∨
        (s.id = targetId ∧
          (SimpleServer.putStudySession db callerId targetId body now).2.studySessions[i]? =
            some (SimpleServer.applyUpdates s (SimpleServer.buildUpdates body) now)))) ∧
    (∀ s, (SimpleServer.applyUpdates s (SimpleServer.buildUpdates body) now).id = s.id ∧
      (SimpleServer.applyUpdates s (SimpleServer.buildUpdates body) now).userId = s.userId ∧
      (SimpleServer.applyUpdates s (SimpleServer.buildUpdates body) now).createdAt = s.createdAt ∧
      (SimpleServer.applyUpdates s (SimpleServer.buildUpdates body) now).updatedAt = some now ∧
      ((SimpleServer.buildUpdates body).date = none →
        (SimpleServer.applyUpdates s (SimpleServer.buildUpdates body) now).date = s.date) ∧
      ((SimpleServer.buildUpdates body).duration = none →
        (SimpleServer.applyUpdates s (SimpleServer.buildUpdates body) now).duration = s.duration) ∧
      ((SimpleServer.buildUpdates body).notes = none →
        (SimpleServer.applyUpdates s (SimpleServer.buildUpdates body) now).notes = s.notes)) ∧
    (∀ d, (SimpleServer.buildUpdates body).date = some d → body.date = some d ∧ d ≠ "") ∧
    (∀ d, (SimpleServer.buildUpdates body).duration = some d → body.duration = some d ∧ d ≠ 0) ∧
    (∀ m, (SimpleServer.buildUpdates body).notes = some m → body.notes = some m) := by
  have key : (SimpleServer.putStudySession db callerId targetId body now).2 = db ∨
      (SimpleServer.putStudySession db callerId targetId body now).2 =
        { db with studySessions :=
            (SimpleServer.updateFirst db.studySessions targetId
              (SimpleServer.buildUpdates body) now).2 } := by
    unfold SimpleServer.putStudySession
    cases hf : db.studySessions.find? (fun s => s.id == targetId) with
    | none => exact Or.inl rfl
    | some s =>
      by_cases hw : s.userId == callerId
      · dsimp only
        rw [if_pos hw]
        exact Or.inr rfl
      · dsimp only
        rw [if_neg hw]
        exact Or.inl rfl
  refine ⟨?_, ?_, ?_, ?_, ?_, ?_, ?_⟩
  · rcases key with hk | hk <;> rw [hk]
  · rcases key with hk | hk <;> rw [hk]
    exact updateFirst_length targetId (SimpleServer.buildUpdates body) now db.studySessions
  · intro i s h
    rcases key with hk | hk <;> rw [hk]
    · exact Or.inl h
    · exact updateFirst_getElem targetId (SimpleServer.buildUpdates body) now
        db.studySessions i s h
  · intro s
    refine ⟨rfl, rfl, rfl, rfl, ?_, ?_, ?_⟩
    · intro h
      simp [SimpleServer.applyUpdates, h]
    · intro h
      simp [SimpleServer.applyUpdates, h]
    · intro h
      simp [SimpleServer.applyUpdates, h]
  · intro d h
    simp only [SimpleServer.buildUpdates] at h
    cases hb : body.date with
    | none => rw [hb] at h; cases h
    | some d0 =>
      rw [hb] at h
      dsimp only at h
      by_cases hd0 : d0 = ""
      · rw [if_pos hd0] at h; cases h
      · rw [if_neg hd0] at h
        injection h with h
        subst h
        exact ⟨rfl, hd0⟩
  · intro d h
    simp only [SimpleServer.buildUpdates] at h
    cases hb : body.duration with
    | none => rw [hb] at h; cases h
    | some d0 =>
      rw [hb] at h
      dsimp only at h
      by_cases hd0 : d0 = 0
      · rw [if_pos hd0] at h; cases h
      · rw [if_neg hd0] at h
        injection h with h
        subst h
        exact ⟨rfl, hd0⟩
  · intro m h
    simp only [SimpleServer.buildUpdates] at h
    exact h

/-- Claim C10 witness: a concrete update touching only the duration and
notes fields leaves the user table, the target's identity fields and its
date unchanged. -/
theorem claim_c10_update_frame_witness :
    (SimpleServer.putStudySession
        ⟨[⟨"u1", "n", "e", "p", "tk"⟩],
         [⟨"s1", "u1", "2024-01-01", 30, "", "t0", none⟩]⟩
        "u1" "s1" ⟨none, some 60, some "ok", some "u9"⟩ "t9").2.users =
      [⟨"u1", "n", "e", "p", "tk"⟩] ∧
    (SimpleServer.applyUpdates ⟨"s1", "u1", "2024-01-01", 30, "", "t0", none⟩
        (SimpleServer.buildUpdates ⟨none, some 60, some "ok", some "u9"⟩) "t9").userId = "u1" ∧
    (SimpleServer.applyUpdates ⟨"s1", "u1", "2024-01-01", 30, "", "t0", none⟩
        (SimpleServer.buildUpdates ⟨none, some 60, some "ok", some "u9"⟩) "t9").date =
      "2024-01-01" := by
  have h := claim_c10_update_frame
    ⟨[⟨"u1", "n", "e", "p", "tk"⟩],
     [⟨"s1", "u1", "2024-01-01", 30, "", "t0", none⟩]⟩
    "u1" "s1" "t9" ⟨none, some 60, some "ok", some "u9"⟩
  exact ⟨h.1, (h.2.2.2.1 ⟨"s1", "u1", "2024-01-01", 30, "", "t0", none⟩).2.1,
    (h.2.2.2.1 ⟨"s1", "u1", "2024-01-01", 30, "", "t0", none⟩).2.2.2.2.1 rfl⟩

end StudyTracker
